import Mathlib

/-!
Shallow embedding of the LinkedIn job-application agent
(`ai_assistant.py`, `utils/database.py`, `linkedin_auto_apply.py`,
`linkedin_apply.py`, `linkedin_jobs.py`) and proofs about the persistence
contract, the application-walk step loops, the form-filling logic and the
job-id extraction.  Python strings are modelled as `String`/`List Char`,
machine-level side effects (browser, SQLite, LLM HTTP calls) as explicit
parameters describing the outcome the surrounding code observes.
-/

set_option autoImplicit false

namespace JobAgent

/-! ## Python string primitives -/

/-- Python's substring test `sep in s` (for a non-empty `sep`), on
character lists. -/
def containsSub (sep : List Char) : List Char → Bool
  | [] => sep.isEmpty
  | c :: rest => sep.isPrefixOf (c :: rest) || containsSub sep rest

/-- One pass of Python's `str.split(sep)` for a non-empty separator:
`acc` holds the characters of the chunk being built, in reverse.  The scan
is left to right; on a separator match the chunk is emitted and the whole
match consumed (Python's non-overlapping semantics).  `fuel` bounds the
characters still to scan — every step consumes at least one, so with
`fuel ≥ s.length` (as `pySplit` arranges) the out-of-fuel equation is
never reached; it only makes the recursion structural. -/
def pySplitGo (sep : List Char) : Nat → List Char → List Char → List (List Char)
  | _, acc, [] => [acc.reverse]
  | 0, acc, _ :: _ => [acc.reverse]
  | fuel + 1, acc, c :: rest =>
    if sep.isPrefixOf (c :: rest) then
      acc.reverse :: pySplitGo sep fuel [] (rest.drop (sep.length - 1))
    else
      pySplitGo sep fuel (c :: acc) rest

/-- Python's `s.split(sep)` for a non-empty separator `sep`. -/
def pySplit (sep s : List Char) : List (List Char) :=
  pySplitGo sep s.length [] s

/-- Python's `str.lower()`, character-wise (the labels involved are
ASCII). -/
def pyLower (s : String) : String :=
  String.mk (s.data.map Char.toLower)

/-- Python's `str.strip()`: whitespace removed from both ends. -/
def pyStrip (s : String) : String :=
  String.mk (((s.data.dropWhile Char.isWhitespace).reverse.dropWhile
    Char.isWhitespace).reverse)

/-- A separator has no border when no proper prefix of it is also a proper
suffix; then occurrences cannot overlap and the last chunk of the split is
exactly the text after the last occurrence. -/
def BorderFree (sep : List Char) : Prop :=
  ∀ k < sep.length, 0 < k → sep.take k ≠ sep.drop (sep.length - k)

/-! ## Job-id extraction (`linkedin_auto_apply.py`) -/

/-- The URL separator `"jobs/view/"` used by the job-id extraction. -/
def sepJV : List Char := "jobs/view/".data

/-- Models `job_url.split('jobs/view/')[-1].split('?')[0]`, the job-id
extraction repeated in `is_already_applied`, `apply_to_jobs` and
`handle_easy_apply_process` of `linkedin_auto_apply.py`.  Python's `split`
always returns a non-empty list, so the `[-1]` and `[0]` indexings (here
`getLastD`/`headD`) cannot fail. -/
def extract_job_id (u : String) : String :=
  String.mk ((pySplit ['?'] ((pySplit sepJV u.data).getLastD [])).headD [])

/-! ## `AIJobAssistant.analyze_job` (`ai_assistant.py`) -/

/-- The fallback message `analyze_job` pairs with `True` when the gateway
call or the response parsing fails. -/
def aiFailedMsg : String := "AI analysis failed, proceeding anyway"

/-- Models `AIJobAssistant.analyze_job`.  `gw` is what `_make_api_request`
returns: `none` when the HTTP call raised, timed out or errored (that
method catches every exception and returns `None`), otherwise the response
content.  An empty content is falsy in Python (`if not result`).  The
unpacking `result.split('|')` raises `ValueError` unless the split has
exactly four parts, and the enclosing `except` then returns the fallback
pair. -/
def analyze_job (hasApiKey : Bool) (gw : Option String) : Bool × String :=
  if !hasApiKey then (true, "AI analysis skipped")
  else
    match gw with
    | none => (true, aiFailedMsg)
    | some r =>
      if r = "" then (true, aiFailedMsg)
      else
        match pySplit ['|'] r.data with
        | [a, b, _, _] => (pyStrip (pyLower (String.mk a)) == "yes", String.mk b)
        | _ => (true, aiFailedMsg)

/-! ## `DatabaseManager` (`utils/database.py`) -/

/-- A row of the `jobs` table of `utils/database.py`; `job_id` is declared
UNIQUE.  `date_applied` is the `datetime.now()` timestamp, modelled as a
number. -/
structure JobRow where
  job_id : String
  title : String
  company : String
  location : String
  date_applied : Nat
  application_status : String
  job_url : String
deriving DecidableEq

/-- The effect of `INSERT OR REPLACE INTO jobs ...` keyed by the UNIQUE
column `job_id`: every row conflicting on `job_id` is deleted and the new
row inserted. -/
def upsertJob (t : List JobRow) (r : JobRow) : List JobRow :=
  r :: t.filter (fun x => x.job_id != r.job_id)

/-- Models `DatabaseManager.add_job`: `ok` says whether the SQL executes;
on any exception the method logs and returns `False` with the table
unchanged, otherwise it performs the upsert and returns `True`. -/
def add_job (ok : Bool) (t : List JobRow) (r : JobRow) : Bool × List JobRow :=
  if ok then (true, upsertJob t r) else (false, t)

/-- Models `DatabaseManager.job_exists`: `SELECT COUNT(*) FROM jobs WHERE
job_id = ?` compared with 0; any exception (`readOk = false`) yields
`False`. -/
def job_exists (readOk : Bool) (t : List JobRow) (j : String) : Bool :=
  if !readOk then false
  else decide (0 < (t.filter (fun r => r.job_id == j)).length)

/-! ## The auto-apply store (`linkedin_auto_apply.py`) -/

/-- The `status` CHECK enumeration of the `jobs` table created by
`LinkedInAutoApply.setup_database`. -/
inductive Status where
  | PENDING
  | SKIPPED
  | APPLIED
  | FAILED
  | ERROR
deriving DecidableEq

/-- The status column of the auto-apply `jobs` table, keyed by `job_id`
(its PRIMARY KEY); the claims about this table concern only the status per
`job_id`, so the scraped descriptive columns and timestamps are projected
away. -/
abbrev StatusTable := List (String × Status)

/-- `INSERT OR REPLACE` on the auto-apply `jobs` table, keyed by the
PRIMARY KEY `job_id`. -/
def upsertStatus (t : StatusTable) (j : String) (s : Status) : StatusTable :=
  (j, s) :: t.filter (fun x => x.1 != j)

/-- `SELECT status FROM jobs WHERE job_id = ?` (first row, if any). -/
def lookupStatus : StatusTable → String → Option Status
  | [], _ => none
  | x :: rest, j => if x.1 == j then some x.2 else lookupStatus rest j

/-- Models `LinkedInAutoApply.save_job_details`: returns early (a plain
`None` in Python) when the database is disabled; otherwise attempts the
`INSERT OR REPLACE`, with any exception inside the `try` logged and
swallowed, leaving the table unchanged (`writeOk = false`).  Note the
module imports `datetime` as a module, so the `datetime.now()` arguments
raise `AttributeError` at runtime and every call is in fact swallowed;
`writeOk = true` models the write the statement performs when it executes,
which is the behaviour the method itself asserts by its
`"Saved job details"` log. -/
def save_job_details (dbEnabled writeOk : Bool) (t : StatusTable)
    (jobId : String) (status : Status) : StatusTable :=
  if !dbEnabled then t
  else if !writeOk then t
  else upsertStatus t jobId status

/-- A row of the `application_attempts` table
(`LinkedInAutoApply.log_application_attempt`). -/
structure AttemptRow where
  job_id : String
  status : String
  error_message : Option String
  step_reached : Option String
  form_data : Option String
deriving DecidableEq

/-- Models `LinkedInAutoApply.log_application_attempt`: early return when
the database is disabled, exception swallowed on a failed INSERT, append
otherwise. -/
def log_application_attempt (dbEnabled writeOk : Bool)
    (l : List AttemptRow) (row : AttemptRow) : List AttemptRow :=
  if !dbEnabled then l
  else if !writeOk then l
  else l ++ [row]

/-- A row of the `form_fields` table (`LinkedInAutoApply.save_form_field`;
`field_options` is `str(field_options)` or `None`). -/
structure FormFieldRow where
  job_id : String
  field_type : String
  field_label : String
  field_options : Option String
  is_required : Bool
deriving DecidableEq

/-- Models `LinkedInAutoApply.save_form_field`: early return when the
database is disabled, exception swallowed on a failed INSERT, append
otherwise. -/
def save_form_field (dbEnabled writeOk : Bool)
    (l : List FormFieldRow) (row : FormFieldRow) : List FormFieldRow :=
  if !dbEnabled then l
  else if !writeOk then l
  else l ++ [row]

/-- Models `LinkedInAutoApply.is_already_applied` (job URL → Bool, plus
the in-memory `applied_jobs` cache it may extend).  `dbEnabled` is
`self.db_enabled`; `readOk` models the `try` block, whose exceptions are
logged and turned into `False` ("continuing assuming not applied").  The
memory cache is consulted before the table, and only a stored status of
exactly `APPLIED` counts. -/
def is_already_applied (dbEnabled readOk : Bool) (cache : List String)
    (t : StatusTable) (jobUrl : String) : Bool × List String :=
  if !dbEnabled then (false, cache)
  else if !readOk then (false, cache)
  else
    let j := extract_job_id jobUrl
    if cache.contains j then (true, cache)
    else
      match lookupStatus t j with
      | some Status.APPLIED => (true, j :: cache)
      | _ => (false, cache)

/-! ## The per-card walk of `LinkedInAutoApply.apply_to_jobs` -/

/-- Substring test on strings (Python's `needle in hay`). -/
def strContains (needle hay : String) : Bool :=
  containsSub needle.data hay.data

/-- The résumé data `get_form_field_value` draws on;
`years_of_experience` reaches the mapping through Python's `str(...)`. -/
structure Resume where
  name : Option String
  email : Option String
  phone : Option String
  linkedin : Option String
  github : Option String
  portfolio : Option String
  location : Option String
  work_authorization : Option String
  years_of_experience : Option String
  current_title : Option String

/-- Python's `str` on an optional value: `str(None)` is the string
`"None"`. -/
def pyStrOpt : Option String → String
  | some s => s
  | none => "None"

/-- Python truthiness of an optional string: `None` and `""` are falsy. -/
def truthy : Option String → Bool
  | none => false
  | some s => s != ""

/-- The `direct_mappings` dictionary of `get_form_field_value`, in
insertion (iteration) order. -/
def direct_mappings (r : Resume) : List (String × Option String) :=
  [("name", r.name),
   ("email", r.email),
   ("phone", r.phone),
   ("linkedin", r.linkedin),
   ("github", r.github),
   ("portfolio", r.portfolio),
   ("location", r.location),
   ("work authorization", r.work_authorization),
   ("years of experience", some (pyStrOpt r.years_of_experience)),
   ("current title", r.current_title)]

/-- The loop `for key, value in direct_mappings.items(): if key in
field_label and value: return value` — the first mapping whose key is a
substring of the (lowercased) label and whose value is truthy. -/
def directHit (r : Resume) (labelLower : String) : Option String :=
  (direct_mappings r).findSome? (fun kv =>
    if strContains kv.1 labelLower && truthy kv.2 then kv.2 else none)

/-- The gateway leg of `get_form_field_value`: `None` on a failed request
or empty content, otherwise the stripped content. -/
def gatewayFieldValue (gw : Option String) : Option String :=
  match gw with
  | none => none
  | some res => if res = "" then none else some (pyStrip res)

/-- Models `AIJobAssistant.get_form_field_value`: the label is lowercased,
the direct mappings are consulted first, and the gateway (`gw` is the
`_make_api_request` result) only when no mapping hit. -/
def get_form_field_value (r : Resume) (fieldLabel : String)
    (gw : Option String) : Option String :=
  match directHit r (pyLower fieldLabel) with
  | some v => some v
  | none => gatewayFieldValue gw

/-- A résumé holding only a name, for concrete evaluations. -/
def testResume : Resume :=
  ⟨some "John Doe", none, none, none, none, none, none, none, none, none⟩

/-! ## Select-option choice (`linkedin_apply.py` / `linkedin_jobs.py`) -/

/-- Index of the first option whose (visible) text equals `v` exactly —
Selenium's `select_by_visible_text` match. -/
def firstMatchIdx (v : String) : List String → Option Nat
  | [] => none
  | o :: rest => if o == v then some 0 else (firstMatchIdx v rest).map (· + 1)

/-- Selenium's `Select.select_by_visible_text`: exact, case-sensitive
match on option text; `none` models the `NoSuchElementException` it raises
when nothing matches. -/
def select_by_visible_text (options : List String) (v : String) : Option Nat :=
  firstMatchIdx v options

/-- Models the select branch of `LinkedInApply.fill_application_form`
(lines 170–175): `select_by_visible_text(value)`, and on its exception
`select_by_index(0)` — which itself raises (caught by the per-field
handler, `none`) when there is no option at index 0. -/
def applySelectChoice (options : List String) (v : String) : Option Nat :=
  match select_by_visible_text options v with
  | some i => some i
  | none => if options.isEmpty then none else some 0

/-- Models the select branch of `LinkedInJobs.fill_form_fields`
(lines 1160–1169): with more than one option the script sets the field to
`options[1].value` unconditionally — the candidate value plays no part;
with at most one option the branch sets nothing. -/
def jobsSelectChoice (options : List String) : Option Nat :=
  if 1 < options.length then some 1 else none

/-! ## `LinkedInJobs.fill_form_fields` / `get_required_fields` -/

/-- The three selector families of `get_required_fields`. -/
inductive FieldKind where
  | input
  | select
  | textarea
deriving DecidableEq

/-- One entry of the `required_fields` list `get_required_fields` builds:
`name` is `name or id or aria-label` (possibly `None`), `current_value`
the scraped `value` attribute. -/
structure ReqField where
  kind : FieldKind
  name : Option String
  current_value : Option String
  input_type : String
  options : List String
deriving DecidableEq

/-- The skip guard of `fill_form_fields`: `if field['current_value'] and
len(field['current_value'].strip()) > 0: continue` — truthy and non-blank
after stripping whitespace. -/
def hasNonBlankValue : Option String → Bool
  | none => false
  | some s => s != "" && pyStrip s != ""

/-- `field['name'].lower() if field['name'] else ''`. -/
def lowerName : Option String → String
  | some s => pyLower s
  | none => ""

/-- The default text typed into a required textarea. -/
def textareaDefault : String :=
  "I am highly interested in this position and believe my skills and experience make me a strong candidate."

/-- The input-type dependent defaults of `fill_form_fields`. -/
def inputDefault (inputType : String) : String :=
  if inputType = "text" then "Yes"
  else if inputType = "number" then "3"
  else if inputType = "tel" then "1234567890"
  else if inputType = "url" then "https://linkedin.com"
  else "Yes"

/-- What `fill_form_fields` does to one field. -/
inductive FillAction where
  /-- skipped because the scraped value is truthy and non-blank -/
  | keptExisting
  /-- the resume/cv branch: `continue`, nothing typed -/
  | skippedUpload
  /-- a dropdown set to `options[1].value` via JavaScript -/
  | selectedSecond (optValue : String)
  /-- `element.clear()` then `element.send_keys(v)` -/
  | filled (v : String)
  /-- `element.clear()` ran but `send_keys(value)` raised `NameError`
  (`value` was never assigned on this path), caught by the inner
  handler -/
  | clearedOnly
deriving DecidableEq

/-- One iteration of the `for field in required_fields` loop.  `prior` is
the Python local `value`, which survives from earlier iterations: a select
with at most one option falls through to the shared `clear`/`send_keys`
code with whatever `value` previously held. -/
def fillStep (prior : Option String) (f : ReqField) :
    Option String × FillAction :=
  if hasNonBlankValue f.current_value then (prior, .keptExisting)
  else
    let nm := lowerName f.name
    if strContains "year" nm || strContains "years" nm
        || strContains "experience" nm then
      (some "3", .filled "3")
    else if strContains "salary" nm || strContains "compensation" nm then
      (some "80000", .filled "80000")
    else if strContains "phone" nm then
      (some "1234567890", .filled "1234567890")
    else if strContains "website" nm then
      (some "https://linkedin.com/in/myprofile",
       .filled "https://linkedin.com/in/myprofile")
    else if strContains "resume" nm || strContains "cv" nm then
      (prior, .skippedUpload)
    else
      match f.kind with
      | .select =>
        if 1 < f.options.length then
          (prior, .selectedSecond (f.options.getD 1 ""))
        else
          match prior with
          | some v => (some v, .filled v)
          | none => (none, .clearedOnly)
      | .input =>
        (some (inputDefault f.input_type), .filled (inputDefault f.input_type))
      | .textarea =>
        (some textareaDefault, .filled textareaDefault)

/-- The whole field loop, threading the Python local `value`. -/
def fillActions (prior : Option String) : List ReqField → List FillAction
  | [] => []
  | f :: rest => (fillStep prior f).2 :: fillActions (fillStep prior f).1 rest

/-- Models `LinkedInJobs.fill_form_fields`: per-field failures are caught
inside the loop, so the method returns `True` whenever the loop itself
runs to completion — regardless of which fields actually received a
value. -/
def fill_form_fields (fields : List ReqField) : Bool × List FillAction :=
  (true, fillActions none fields)

/-! ## The step loops of the Application Walk -/

/-- The split never returns an empty list, so Python's `[-1]` and `[0]`
indexings on it cannot fail. -/
theorem pySplitGo_ne_nil (sep : List Char) :
    ∀ (fuel : Nat) (acc s : List Char), pySplitGo sep fuel acc s ≠ [] := by
  intro fuel
  induction fuel with
  | zero =>
    intro acc s
    cases s with
    | nil => simp [pySplitGo]
    | cons c rest => simp [pySplitGo]
  | succ n ih =>
    intro acc s
    cases s with
    | nil => simp [pySplitGo]
    | cons c rest =>
      rw [pySplitGo]
      split
      · simp
      · exact ih (c :: acc) rest

/-- Splitting a string with no separator occurrence yields one chunk. -/
theorem pySplitGo_eq_of_not_contains (sep : List Char) :
    ∀ (fuel : Nat) (acc s : List Char), s.length ≤ fuel →
      containsSub sep s = false → pySplitGo sep fuel acc s = [acc.reverse ++ s] := by
  intro fuel
  induction fuel with
  | zero =>
    intro acc s hs _
    have h0 : s = [] := List.eq_nil_of_length_eq_zero (Nat.le_zero.mp hs)
    subst h0
    simp [pySplitGo]
  | succ n ih =>
    intro acc s hs hcon
    cases s with
    | nil => simp [pySplitGo]
    | cons c rest =>
      rw [containsSub] at hcon
      rw [Bool.or_eq_false_iff] at hcon
      rw [pySplitGo]
      split
      · simp_all
      · rw [ih (c :: acc) rest (by simpa using Nat.le_of_succ_le_succ hs) hcon.2]
        simp

/-- The head of a split on `'?'` is the text before the first `'?'`. -/
theorem pySplitGo_q_headD :
    ∀ (fuel : Nat) (s acc : List Char), s.length ≤ fuel →
      (pySplitGo ['?'] fuel acc s).headD []
        = acc.reverse ++ s.takeWhile (fun c => !(c == '?')) := by
  intro fuel
  induction fuel with
  | zero =>
    intro s acc hs
    have h0 : s = [] := List.eq_nil_of_length_eq_zero (Nat.le_zero.mp hs)
    subst h0
    simp [pySplitGo]
  | succ n ih =>
    intro s acc hs
    cases s with
    | nil => simp [pySplitGo]
    | cons c rest =>
      rw [pySplitGo]
      by_cases hc : c = '?'
      · subst hc
        simp [List.isPrefixOf, List.takeWhile_cons]
      · have hcb : ('?' == c) = false := by
          rw [beq_eq_false_iff_ne]
          exact fun h => hc h.symm
        have hcb2 : (c == '?') = false := by
          rw [beq_eq_false_iff_ne]
          exact hc
        simp only [List.isPrefixOf, hcb, Bool.false_and, Bool.false_eq_true, if_false]
        rw [ih rest (c :: acc) (by simpa using Nat.le_of_succ_le_succ hs)]
        simp [List.takeWhile_cons, hcb2]

/-- The last chunk of a split at a decomposition `a ++ sep ++ b` whose
tail `b` is free of further occurrences is exactly `b`, provided the
separator has no border (its occurrences then cannot overlap). -/
theorem pySplitGo_getLast?_decomp (sep : List Char) (hsep : sep ≠ [])
    (hbf : BorderFree sep) :
    ∀ (fuel : Nat) (a b acc : List Char), (a ++ sep ++ b).length ≤ fuel →
      containsSub sep b = false →
      (pySplitGo sep fuel acc (a ++ sep ++ b)).getLast? = some b := by
  have hslen : 0 < sep.length := List.length_pos.mpr hsep
  intro fuel
  induction fuel with
  | zero =>
    intro a b acc hlen _
    exfalso
    simp only [List.length_append] at hlen
    omega
  | succ n ih =>
    intro a b acc hlen hconb
    cases a with
    | nil =>
      simp only [List.nil_append] at hlen ⊢
      obtain ⟨c, sep0, hsepe⟩ := List.exists_cons_of_ne_nil hsep
      subst hsepe
      rw [List.cons_append, pySplitGo]
      have hpre : (c :: sep0).isPrefixOf (c :: (sep0 ++ b)) = true := by
        rw [List.isPrefixOf_iff_prefix, ← List.cons_append]
        exact List.prefix_append _ b
      rw [if_pos hpre]
      have hdrop : (sep0 ++ b).drop ((c :: sep0).length - 1) = b := by
        simp only [List.length_cons, Nat.add_sub_cancel]
        exact List.drop_left sep0 b
      rw [hdrop]
      have hbn : b.length ≤ n := by
        simp only [List.length_append, List.length_cons] at hlen
        omega
      rw [pySplitGo_eq_of_not_contains _ n [] b hbn hconb]
      simp
    | cons c a2 =>
      have hform : (c :: a2) ++ sep ++ b = c :: (a2 ++ sep ++ b) := by simp
      rw [hform, pySplitGo]
      by_cases hpre : sep.isPrefixOf (c :: (a2 ++ sep ++ b)) = true
      · rw [if_pos hpre]
        by_cases hla : sep.length ≤ (c :: a2).length
        · have hm1 : sep.length - 1 ≤ a2.length := by
            simp only [List.length_cons] at hla
            omega
          have hdrop1 : (a2 ++ sep ++ b).drop (sep.length - 1)
              = ((c :: a2).drop sep.length) ++ sep ++ b := by
            obtain ⟨m0, hm0⟩ : ∃ m0, sep.length = m0 + 1 :=
              ⟨sep.length - 1, by omega⟩
            rw [List.append_assoc, List.drop_append_eq_append_drop]
            rw [Nat.sub_eq_zero_of_le hm1, List.drop_zero]
            rw [hm0, List.drop_succ_cons]
            simp only [Nat.add_sub_cancel, List.append_assoc]
          rw [hdrop1]
          have hlen2 : (((c :: a2).drop sep.length) ++ sep ++ b).length ≤ n := by
            simp only [List.length_append, List.length_drop, List.length_cons] at hlen ⊢
            omega
          have hrec := ih ((c :: a2).drop sep.length) b [] hlen2 hconb
          have hne : pySplitGo sep n [] (((c :: a2).drop sep.length) ++ sep ++ b) ≠ [] :=
            pySplitGo_ne_nil sep n [] _
          cases hx : pySplitGo sep n [] (((c :: a2).drop sep.length) ++ sep ++ b) with
          | nil => exact absurd hx hne
          | cons y ys =>
            rw [hx] at hrec
            rw [List.getLast?_cons_cons]
            exact hrec
        · exfalso
          have hpre2 : sep <+: ((c :: a2) ++ (sep ++ b)) := by
            rw [List.isPrefixOf_iff_prefix] at hpre
            have he : c :: (a2 ++ sep ++ b) = (c :: a2) ++ (sep ++ b) := by simp
            rwa [he] at hpre
          have htake : sep = ((c :: a2) ++ (sep ++ b)).take sep.length :=
            List.prefix_iff_eq_take.mp hpre2
          rw [List.take_append_eq_append_take,
            List.take_of_length_le (Nat.le_of_not_le hla)] at htake
          have hk : sep.length - (c :: a2).length ≤ sep.length := Nat.sub_le _ _
          rw [List.take_append_eq_append_take, Nat.sub_eq_zero_of_le hk,
            List.take_zero, List.append_nil] at htake
          have hdropeq : sep.drop (c :: a2).length
              = sep.take (sep.length - (c :: a2).length) := by
            conv_lhs => rw [htake]
            exact List.drop_left (c :: a2) _
          have h0 : 0 < (c :: a2).length := by simp
          have hlt : (c :: a2).length < sep.length := Nat.lt_of_not_le hla
          have hbfk := hbf (sep.length - (c :: a2).length) (by omega) (by omega)
          apply hbfk
          rw [show sep.length - (sep.length - (c :: a2).length)
              = (c :: a2).length by omega]
          exact hdropeq.symm
      · rw [if_neg hpre]
        have hlen3 : (a2 ++ sep ++ b).length ≤ n := by
          simp only [List.length_cons, List.length_append] at hlen
          simp only [List.length_append]
          omega
        exact ih a2 b (c :: acc) hlen3 hconb

/-- Claim C9: the job-id extraction is total (the split is never empty, so
the Python indexings cannot fail) and returns the text after the last
occurrence of `jobs/view/` up to the first subsequent `?`; a URL without a
`jobs/view/` segment yields the whole URL up to the first `?`, so distinct
non-job URLs can share a job id. -/
theorem extract_job_id_spec :
    (∀ a b : List Char, containsSub sepJV b = false →
        extract_job_id (String.mk (a ++ sepJV ++ b))
          = String.mk (b.takeWhile (fun c => !(c == '?'))))
    ∧ (∀ u : String, containsSub sepJV u.data = false →
        extract_job_id u = String.mk (u.data.takeWhile (fun c => !(c == '?'))))
    ∧ extract_job_id "feed?x=1" = extract_job_id "feed?y=2"
    ∧ ("feed?x=1" : String) ≠ "feed?y=2" := by
  refine ⟨?_, ?_, by decide, by decide⟩
  · intro a b hb
    unfold extract_job_id pySplit
    have hdata : (String.mk (a ++ sepJV ++ b)).data = a ++ sepJV ++ b := rfl
    rw [hdata]
    have hlast := pySplitGo_getLast?_decomp sepJV (by decide)
      (by unfold BorderFree; decide)
      (a ++ sepJV ++ b).length a b [] le_rfl hb
    rw [List.getLastD_eq_getLast?, hlast]
    simp only [Option.getD_some]
    rw [pySplitGo_q_headD b.length b [] le_rfl]
    simp
  · intro u hu
    unfold extract_job_id pySplit
    rw [pySplitGo_eq_of_not_contains sepJV u.data.length [] u.data le_rfl hu]
    simp only [List.reverse_nil, List.nil_append]
    rw [show ([u.data] : List (List Char)).getLastD [] = u.data by simp]
    rw [pySplitGo_q_headD u.data.length u.data [] le_rfl]
    simp

/-- Concrete instances of `extract_job_id_spec`. -/
theorem extract_job_id_spec_check :
    extract_job_id "https://www.linkedin.com/jobs/view/12345?refId=abc" = "12345"
    ∧ extract_job_id "plain?x" = "plain" := by
  constructor
  · have h := extract_job_id_spec.1 "https://www.linkedin.com/".data "12345?refId=abc".data (by decide)
    have he : "https://www.linkedin.com/".data ++ sepJV ++ "12345?refId=abc".data
        = "https://www.linkedin.com/jobs/view/12345?refId=abc".data := by decide
    rw [he] at h
    exact h
  · exact extract_job_id_spec.2.1 "plain?x" (by decide)

/-- Claim C2: whenever the gateway call raises, times out, or returns
empty or malformed (not four pipe-separated parts) content, `analyze_job`
returns exactly `(True, "AI analysis failed, proceeding anyway")` — never
`False` in a failure case. -/
theorem analyze_job_failure_proceeds (gw : Option String)
    (h : gw = none ∨ gw = some ""
        ∨ ∃ s, gw = some s ∧ (pySplit ['|'] s.data).length ≠ 4) :
    analyze_job true gw = (true, aiFailedMsg) := by
  rcases h with rfl | rfl | ⟨s, rfl, hlen⟩
  · rfl
  · rfl
  · by_cases hs : s = ""
    · simp [analyze_job, hs]
    · simp only [analyze_job, Bool.not_true, Bool.false_eq_true, if_false, hs]
      rcases hl : pySplit ['|'] s.data with _ | ⟨a, _ | ⟨b, _ | ⟨c, _ | ⟨d, _ | ⟨e, t⟩⟩⟩⟩⟩ <;>
        simp_all

/-- Concrete instances of `analyze_job_failure_proceeds`. -/
theorem analyze_job_failure_proceeds_check :
    analyze_job true none = (true, aiFailedMsg)
    ∧ analyze_job true (some "") = (true, aiFailedMsg)
    ∧ analyze_job true (some "yes: apply") = (true, aiFailedMsg) :=
  ⟨analyze_job_failure_proceeds none (Or.inl rfl),
   analyze_job_failure_proceeds (some "") (Or.inr (Or.inl rfl)),
   analyze_job_failure_proceeds (some "yes: apply")
     (Or.inr (Or.inr ⟨"yes: apply", rfl, by decide⟩))⟩

/-- Rows filtered out by `job_id ≠ j` never reappear when filtering for
`job_id = j`. -/
theorem filter_beq_of_filter_bne (j : String) (l : List JobRow) :
    (l.filter (fun x => x.job_id != j)).filter (fun x => x.job_id == j) = [] := by
  induction l with
  | nil => rfl
  | cons x rest ih =>
    by_cases hx : x.job_id = j
    · simp only [List.filter_cons, bne, hx, beq_self_eq_true, Bool.not_true,
        Bool.false_eq_true, if_false]
      exact ih
    · have h1 : (x.job_id != j) = true := by simp [bne, hx]
      have h2 : (x.job_id == j) = false := by simp [hx]
      simp only [List.filter_cons, h1, if_true, h2, Bool.false_eq_true, if_false]
      exact ih

/-- Claim C3: two upserts with the same `job_id` and different statuses
leave exactly one row for that `job_id`, holding the later call's values
(replace semantics, not merge): the earlier row is gone entirely. -/
theorem upsertJob_last_write_wins (t : List JobRow) (r1 r2 : JobRow)
    (hid : r1.job_id = r2.job_id)
    (hst : r1.application_status ≠ r2.application_status) :
    (upsertJob (upsertJob t r1) r2).filter (fun x => x.job_id == r2.job_id) = [r2]
    ∧ r1 ∉ upsertJob (upsertJob t r1) r2 := by
  constructor
  · unfold upsertJob
    rw [List.filter_cons]
    simp only [beq_self_eq_true, if_true]
    rw [filter_beq_of_filter_bne]
  · intro hmem
    unfold upsertJob at hmem
    rcases List.mem_cons.mp hmem with h | h
    · exact hst (congrArg JobRow.application_status h)
    · have := (List.mem_filter.mp h).2
      rw [bne, hid, beq_self_eq_true] at this
      simp at this

/-- Concrete instance of `upsertJob_last_write_wins`. -/
theorem upsertJob_last_write_wins_check :
    (upsertJob (upsertJob []
        (⟨"7", "t", "c", "l", 0, "FAILED", "u"⟩ : JobRow))
        (⟨"7", "t", "c", "l", 1, "APPLIED", "u"⟩ : JobRow)).filter
      (fun x => x.job_id == "7")
      = [(⟨"7", "t", "c", "l", 1, "APPLIED", "u"⟩ : JobRow)]
    ∧ (⟨"7", "t", "c", "l", 0, "FAILED", "u"⟩ : JobRow)
        ∉ upsertJob (upsertJob []
            (⟨"7", "t", "c", "l", 0, "FAILED", "u"⟩ : JobRow))
            (⟨"7", "t", "c", "l", 1, "APPLIED", "u"⟩ : JobRow) :=
  upsertJob_last_write_wins []
    ⟨"7", "t", "c", "l", 0, "FAILED", "u"⟩
    ⟨"7", "t", "c", "l", 1, "APPLIED", "u"⟩ rfl (by decide)

/-- Claim C7: every persistence write operation returns normally for
every input — `add_job` answers `False`, the auto-apply writers return with
the store untouched — whenever the store is disabled or the write fails, so
the walk continues past persistence failures. -/
theorem persistence_failures_swallowed :
    (∀ (t : List JobRow) (r : JobRow), add_job false t r = (false, t))
    ∧ (∀ (t : List JobRow) (r : JobRow), add_job true t r = (true, upsertJob t r))
    ∧ (∀ (wk : Bool) (t : StatusTable) (j : String) (s : Status),
        save_job_details false wk t j s = t)
    ∧ (∀ (t : StatusTable) (j : String) (s : Status),
        save_job_details true false t j s = t)
    ∧ (∀ (wk : Bool) (l : List AttemptRow) (row : AttemptRow),
        log_application_attempt false wk l row = l)
    ∧ (∀ (l : List AttemptRow) (row : AttemptRow),
        log_application_attempt true false l row = l)
    ∧ (∀ (wk : Bool) (l : List FormFieldRow) (row : FormFieldRow),
        save_form_field false wk l row = l)
    ∧ (∀ (l : List FormFieldRow) (row : FormFieldRow),
        save_form_field true false l row = l) :=
  ⟨fun _ _ => rfl, fun _ _ => rfl, fun _ _ _ _ => rfl, fun _ _ _ => rfl,
   fun _ _ _ => rfl, fun _ _ => rfl, fun _ _ _ => rfl, fun _ _ => rfl⟩

theorem firstMatchIdx_of_mem (v : String) :
    ∀ l : List String, v ∈ l →
      ∃ i, firstMatchIdx v l = some i ∧ l.get? i = some v := by
  intro l
  induction l with
  | nil => intro h; exact absurd h (List.not_mem_nil v)
  | cons o rest ih =>
    intro hm
    by_cases ho : o = v
    · exact ⟨0, by simp [firstMatchIdx, ho], by simp [ho]⟩
    · have hv : v ∈ rest := by
        rcases List.mem_cons.mp hm with h | h
        · exact absurd h.symm ho
        · exact h
      obtain ⟨i, h1, h2⟩ := ih hv
      refine ⟨i + 1, ?_, by simpa using h2⟩
      have hob : (o == v) = false := by
        rw [beq_eq_false_iff_ne]; exact ho
      simp [firstMatchIdx, hob, h1]

theorem firstMatchIdx_of_not_mem (v : String) :
    ∀ l : List String, v ∉ l → firstMatchIdx v l = none := by
  intro l
  induction l with
  | nil => intro _; rfl
  | cons o rest ih =>
    intro hm
    have ho : (o == v) = false := by
      rw [beq_eq_false_iff_ne]
      intro h
      exact hm (h ▸ List.mem_cons_self o rest)
    have hv : v ∉ rest := fun h => hm (List.mem_cons_of_mem o h)
    simp [firstMatchIdx, ho, ih hv]

/-- Claim C5 (amended): in the `fill_application_form` path, a select
option is chosen by exact, case-sensitive match of the candidate against
the option text, with index 0 as the no-match fallback; in the
`fill_form_fields` path of linkedin_jobs.py, index 1 is chosen
unconditionally when more than one option exists and nothing otherwise. -/
theorem select_choice_semantics (options : List String) (v : String) :
    (v ∈ options →
      ∃ i, select_by_visible_text options v = some i
        ∧ options.get? i = some v
        ∧ applySelectChoice options v = some i)
    ∧ (v ∉ options → options ≠ [] → applySelectChoice options v = some 0)
    ∧ (1 < options.length → jobsSelectChoice options = some 1)
    ∧ (options.length ≤ 1 → jobsSelectChoice options = none) := by
  refine ⟨?_, ?_, ?_, ?_⟩
  · intro hm
    obtain ⟨i, h1, h2⟩ := firstMatchIdx_of_mem v options hm
    exact ⟨i, h1, h2, by simp [applySelectChoice, select_by_visible_text, h1]⟩
  · intro hm hne
    have h1 := firstMatchIdx_of_not_mem v options hm
    have h2 : options.isEmpty = false := by
      simpa [List.isEmpty_iff] using hne
    simp [applySelectChoice, select_by_visible_text, h1, h2]
  · intro h
    simp [jobsSelectChoice, h]
  · intro h
    simp [jobsSelectChoice, Nat.not_lt.mpr h]

/-- Claim C5 counterexample: with options `["Maybe", "No"]` the
`fill_form_fields` path selects index 1 (`"No"`), not the claimed index-0
fallback `"Maybe"` that the `fill_application_form` path uses. -/
theorem jobs_select_second_option_demo :
    jobsSelectChoice ["Maybe", "No"] = some 1
    ∧ jobsSelectChoice ["Maybe", "No"] ≠ some 0
    ∧ applySelectChoice ["Maybe", "No"] "Yes" = some 0 :=
  ⟨rfl, by decide, rfl⟩

/-- Claim C8 (amended): the deterministic résumé mapping is consulted
first and applies by substring containment of a mapping key in the
lowercased label with a truthy value; the gateway result is irrelevant when
a mapping hit exists and is consulted exactly when there is none. -/
theorem form_field_mapping_order (r : Resume) (lab : String) (gw gw' : Option String) :
    (∀ v, directHit r (pyLower lab) = some v →
      get_form_field_value r lab gw = some v
        ∧ get_form_field_value r lab gw = get_form_field_value r lab gw')
    ∧ (directHit r (pyLower lab) = none →
        get_form_field_value r lab gw = gatewayFieldValue gw) := by
  constructor
  · intro v h
    constructor <;> simp [get_form_field_value, h]
  · intro h
    simp [get_form_field_value, h]

/-- Claim C8 counterexample: the label `"Nickname"` equals no mapping
key, yet the mapping applies (the key `"name"` is a substring), returning
the résumé name with no gateway involvement. -/
theorem substring_mapping_demo :
    get_form_field_value testResume "Nickname" none = some "John Doe"
    ∧ ((direct_mappings testResume).map (fun kv => kv.1)).contains "nickname" = false
    ∧ pyLower "Nickname" = "nickname" :=
  ⟨by decide, by decide, by decide⟩

/-- The input-type defaults of `fill_form_fields` are never empty. -/
theorem inputDefault_ne_empty (it : String) : inputDefault it ≠ "" := by
  unfold inputDefault
  repeat' split
  all_goals decide

/-- Claim C6 (amended): a required field whose scraped value is non-blank
after stripping is left untouched; an empty required input or textarea
field whose name does not contain `resume`/`cv` receives a non-empty
default; and `fill_form_fields` reports success regardless, so the walk
advances past the step. -/
theorem fill_form_fields_contract (prior : Option String) (f : ReqField)
    (fields : List ReqField) :
    (hasNonBlankValue f.current_value = true →
      (fillStep prior f).2 = FillAction.keptExisting)
    ∧ (hasNonBlankValue f.current_value = false →
        (f.kind = FieldKind.input ∨ f.kind = FieldKind.textarea) →
        strContains "resume" (lowerName f.name) = false →
        strContains "cv" (lowerName f.name) = false →
        ∃ v, (fillStep prior f).2 = FillAction.filled v ∧ v ≠ "")
    ∧ (fill_form_fields fields).1 = true := by
  refine ⟨?_, ?_, rfl⟩
  · intro h
    unfold fillStep
    rw [if_pos h]
  · intro h hkind hres hcv
    obtain ⟨k, nm0, cv0, it0, opts0⟩ := f
    simp only at h hres hcv hkind
    unfold fillStep
    simp only
    rw [if_neg (by simp [h])]
    by_cases h1 : (strContains "year" (lowerName nm0)
        || strContains "years" (lowerName nm0)
        || strContains "experience" (lowerName nm0)) = true
    · rw [if_pos h1]
      exact ⟨"3", rfl, by decide⟩
    · rw [if_neg h1]
      by_cases h2 : (strContains "salary" (lowerName nm0)
          || strContains "compensation" (lowerName nm0)) = true
      · rw [if_pos h2]
        exact ⟨"80000", rfl, by decide⟩
      · rw [if_neg h2]
        by_cases h3 : strContains "phone" (lowerName nm0) = true
        · rw [if_pos h3]
          exact ⟨"1234567890", rfl, by decide⟩
        · rw [if_neg h3]
          by_cases h4 : strContains "website" (lowerName nm0) = true
          · rw [if_pos h4]
            exact ⟨"https://linkedin.com/in/myprofile", rfl, by decide⟩
          · rw [if_neg h4]
            have h5 : (strContains "resume" (lowerName nm0)
                || strContains "cv" (lowerName nm0)) = false := by
              rw [hres, hcv]
              rfl
            rw [if_neg (by simp [h5])]
            rcases hkind with hk | hk <;> subst hk
            · exact ⟨inputDefault it0, rfl, inputDefault_ne_empty it0⟩
            · exact ⟨textareaDefault, rfl, by decide⟩

/-- Claim C6 counterexample: a required upload field named `resume` with
empty value is left unfilled while the fill still reports success, and a
field whose pre-existing value is the non-empty string `" "` is cleared and
overwritten. -/
theorem required_field_fill_gaps_demo :
    fill_form_fields [⟨FieldKind.input, some "resume", some "", "file", []⟩]
      = (true, [FillAction.skippedUpload])
    ∧ fill_form_fields [⟨FieldKind.input, some "first name", some " ", "text", []⟩]
      = (true, [FillAction.filled "Yes"]) := by
  refine ⟨by decide, by decide⟩

/-- `is_already_applied` with the database enabled and the read healthy,
written out. -/
theorem is_already_applied_enabled (cache : List String) (t : StatusTable)
    (url : String) :
    is_already_applied true true cache t url
      = (if cache.contains (extract_job_id url) then (true, cache)
         else
           match lookupStatus t (extract_job_id url) with
           | some Status.APPLIED => (true, extract_job_id url :: cache)
           | _ => (false, cache)) := rfl

/-- When the stored status is anything but `APPLIED` (or absent), the
duplicate check reports not-applied and leaves the cache alone. -/
theorem is_already_applied_match_reduce (cache : List String) (t : StatusTable)
    (url : String)
    (hap : lookupStatus t (extract_job_id url) ≠ some Status.APPLIED) :
    (match lookupStatus t (extract_job_id url) with
      | some Status.APPLIED => (true, extract_job_id url :: cache)
      | _ => ((false, cache) : Bool × List String))
      = ((false, cache) : Bool × List String) := by
  rcases hl : lookupStatus t (extract_job_id url) with _ | s
  · rfl
  · cases s with
    | APPLIED => exact absurd hl hap
    | PENDING => rfl
    | SKIPPED => rfl
    | FAILED => rfl
    | ERROR => rfl

/-- Claim C10: the duplicate checks return a boolean for every input,
answer `False` whenever the database is disabled or the read fails, and
`is_already_applied` answers `True` exactly when the stored status is
`APPLIED` (under the cache invariant), so `SKIPPED`/`FAILED`/`ERROR` jobs
are reported not applied; `job_exists` answers whether any row has the
id. -/
theorem duplicate_checks_contract (cache : List String) (t : StatusTable)
    (tj : List JobRow) (url jid : String) (ro : Bool)
    (hcache : ∀ c ∈ cache, lookupStatus t c = some Status.APPLIED) :
    is_already_applied false ro cache t url = (false, cache)
    ∧ is_already_applied true false cache t url = (false, cache)
    ∧ ((is_already_applied true true cache t url).1 = true
        ↔ lookupStatus t (extract_job_id url) = some Status.APPLIED)
    ∧ job_exists false tj jid = false
    ∧ (job_exists true tj jid = true ↔ ∃ r ∈ tj, r.job_id = jid) := by
  refine ⟨rfl, rfl, ?_, rfl, ?_⟩
  · rw [is_already_applied_enabled]
    by_cases hmem : cache.contains (extract_job_id url) = true
    · rw [if_pos hmem]
      simp only [true_iff]
      exact hcache _ (by simpa using hmem)
    · rw [if_neg hmem]
      by_cases hap : lookupStatus t (extract_job_id url) = some Status.APPLIED
      · rw [hap]
        simp [hap]
      · rw [is_already_applied_match_reduce cache t url hap]
        simp only [Bool.false_eq_true, false_iff]
        exact hap
  · unfold job_exists
    simp only [Bool.not_true, Bool.false_eq_true, if_false, decide_eq_true_eq]
    constructor
    · intro h
      have hne : tj.filter (fun r => r.job_id == jid) ≠ [] := by
        intro he
        rw [he] at h
        exact Nat.lt_irrefl 0 h
      obtain ⟨r, hr⟩ := List.exists_mem_of_ne_nil _ hne
      have hm := List.mem_filter.mp hr
      exact ⟨r, hm.1, by simpa using hm.2⟩
    · intro h
      obtain ⟨r, hr, hid⟩ := h
      have hm : r ∈ tj.filter (fun x => x.job_id == jid) :=
        List.mem_filter.mpr ⟨hr, by simp [hid]⟩
      calc 0 < 1 := Nat.zero_lt_one
        _ ≤ (tj.filter (fun x => x.job_id == jid)).length :=
          List.length_pos.mpr (List.ne_nil_of_mem hm)

/-- Concrete instances of `duplicate_checks_contract`. -/
theorem duplicate_checks_contract_check :
    (is_already_applied true true []
      [("9", Status.APPLIED), ("8", Status.FAILED)] "x/jobs/view/9?q").1 = true
    ∧ job_exists true [⟨"9", "t", "c", "l", 0, "APPLIED", "u"⟩] "9" = true := by
  constructor
  · exact (duplicate_checks_contract []
      [("9", Status.APPLIED), ("8", Status.FAILED)] [] "x/jobs/view/9?q" "9" true
      (fun c hc => nomatch hc)).2.2.1.mpr (by decide)
  · exact (duplicate_checks_contract [] []
      [⟨"9", "t", "c", "l", 0, "APPLIED", "u"⟩] "u" "9" true
      (fun c hc => nomatch hc)).2.2.2.2.mpr
      ⟨⟨"9", "t", "c", "l", 0, "APPLIED", "u"⟩, by simp, rfl⟩

end JobAgent
